import Mathlib

/-!
Shallow embedding of the kotalco/resp Redis client (Go) in Lean 4.

The embedding covers:
* the reply decoder `Connection.Receive` together with a model of the
  buffered reader it reads from (`bufio.ReadWriter`), where the underlying
  byte stream is a list of chunks, one chunk per underlying `Read` call;
* the connection pool operations `NewRedisClient`, `GetConnection`,
  `ReleaseConnection` and a step relation describing every reachable pool
  state;
* the command executor `Do` (with its cancellation race made explicit as a
  parameter recording which select branch fires first) and the operations
  `Set`, `SetWithTTL`, `Get`, `Incr` built on top of it.

Bytes are modelled as `Char` (all inputs of interest are 8-bit), byte
strings as `List Char`.
-/

namespace Resp

/-- A buffered reader: `buffered` is the content of the `bufio` internal
buffer, `chunks` are the byte groups that successive underlying `Read`
calls will deliver. -/
structure Reader where
  buffered : List Char
  chunks : List (List Char)
  deriving Repr, DecidableEq

/-- Split a byte list at the first newline, keeping the newline in the
left part; `none` when the list has no newline. -/
def takeToNL : List Char → Option (List Char × List Char)
  | [] => none
  | c :: cs =>
    if c = '\n' then some ([c], cs)
    else
      match takeToNL cs with
      | none => none
      | some (l, r) => some (c :: l, r)

/-- Model of `rw.ReadString('\n')`: pull underlying chunks into the buffer
until a newline is buffered, then return the line (newline included).
`none` models the error path (EOF before the delimiter); the Go caller
treats any non-nil error, partial data or not, as failure. -/
def readLineAux (buf : List Char) : List (List Char) → Option (List Char × List Char × List (List Char))
  | [] =>
    match takeToNL buf with
    | some (l, r) => some (l, r, [])
    | none => none
  | c :: cs =>
    match takeToNL buf with
    | some (l, r) => some (l, r, c :: cs)
    | none => readLineAux (buf ++ c) cs

/-- Read one line from a `Reader` (see `readLineAux`). -/
def readLine (r : Reader) : Option (List Char × Reader) :=
  match readLineAux r.buffered r.chunks with
  | some (l, b, cs) => some (l, ⟨b, cs⟩)
  | none => none

/-- Model of one `rw.Read(buf)` call with `len(buf) = n` on a
`bufio.Reader`: with `n = 0` it returns no bytes and no error; otherwise
it drains at most `n` bytes from the internal buffer when that is
non-empty, and performs exactly one underlying read when it is empty
(`none` models the `io.EOF` error when the source is exhausted). It may
deliver fewer than `n` bytes. -/
def readOnce (n : Nat) (r : Reader) : Option (List Char × Reader) :=
  if n = 0 then some ([], r)
  else if r.buffered = [] then
    match r.chunks with
    | [] => none
    | c :: cs => some (c.take n, ⟨c.drop n, cs⟩)
  else
    some (r.buffered.take n, ⟨r.buffered.drop n, r.chunks⟩)

/-- Model of `strings.TrimSuffix(s, "\r\n")`: drop one trailing CRLF if
present. -/
def trimSuffixCRLF (s : List Char) : List Char :=
  match s.reverse with
  | '\n' :: '\r' :: rest => rest.reverse
  | _ => s

/-- Decimal value of a digit string, most significant digit first. -/
def digitsVal (ds : List Char) : Nat :=
  ds.foldl (fun a c => 10 * a + (c.toNat - '0'.toNat)) 0

/-- Value of a byte list that consists solely of decimal digits and is
non-empty; `none` otherwise. -/
def digitsToNat? (s : List Char) : Option Nat :=
  if s ≠ [] ∧ s.all Char.isDigit then some (digitsVal s) else none

/-- Model of `strconv.Atoi`'s success case: an optional sign followed by
one or more digits, with no other byte; `none` models the error case.
(Atoi's bit-size range clamping is not modelled; no claim involves
lengths near 2^63.) -/
def parseIntAll : List Char → Option Int
  | '-' :: r => (digitsToNat? r).map (fun n => -(n : Int))
  | '+' :: r => (digitsToNat? r).map (fun n => (n : Int))
  | s => (digitsToNat? s).map (fun n => (n : Int))

/-- The length field as `Receive` uses it: `length, _ := strconv.Atoi(...)`
discards the error, so a non-numeric field yields Go's zero value 0. -/
def goAtoi (s : List Char) : Int :=
  match parseIntAll s with
  | some n => n
  | none => 0

/-- Outcome of `Connection.Receive`: a decoded reply string together with
the rest of the stream, a Go error return, or a runtime panic. -/
inductive RecvOut where
  | ok (s : List Char) (r : Reader)
  | err
  | panicked
  deriving Repr, DecidableEq

/-- Model of `Connection.Receive` from the connection source file:

  line, err := rw.ReadString('\n'); on error return the error;
  if line[0] == '-' return an error built from the line;
  if line[0] == '$':
    length, _ := strconv.Atoi(strings.TrimSuffix(line[1:], "\r\n"));
    if length == -1 return ("", nil);
    buf := make([]byte, length+2)        -- panics when length+2 < 0
    _, err = rw.Read(buf); on error return the error;
    return string(buf[:length]), nil     -- panics when length < 0
  otherwise return strings.TrimSuffix(line, "\r\n").

The byte count returned by `rw.Read` is discarded, so `buf` keeps its
zero bytes past what the single read delivered. -/
def Receive (r : Reader) : RecvOut :=
  match readLine r with
  | none => RecvOut.err
  | some (line, r1) =>
    if line.head? = some '-' then RecvOut.err
    else if line.head? = some '$' then
      let length : Int := goAtoi (trimSuffixCRLF (line.drop 1))
      if length = -1 then RecvOut.ok [] r1
      else if length + 2 < 0 then RecvOut.panicked
      else
        match readOnce (length + 2).toNat r1 with
        | none => RecvOut.err
        | some (data, r2) =>
          if length < 0 then RecvOut.panicked
          else
            let buf := data ++ List.replicate ((length + 2).toNat - data.length) (Char.ofNat 0)
            RecvOut.ok (buf.take length.toNat) r2
    else RecvOut.ok (trimSuffixCRLF line) r1

/-! ### Connection pool (`Client` in cleint.go)

Connections are identified by natural numbers; the buffered channel
`client.pool` is a FIFO list of idle connection ids; `poolSize` is the
channel capacity the client was constructed with. -/

/-- Pool state: the idle channel contents plus the configured size. -/
structure PoolState where
  idle : List Nat
  poolSize : Nat
  deriving Repr, DecidableEq

/-- Model of `Client.ReleaseConnection`: under the lock, if the pool
already holds at least `poolSize` connections the argument is closed and
discarded (whether or not `Close` errors); otherwise it is sent into the
pool channel. -/
def ReleaseConnection (st : PoolState) (c : Nat) : PoolState :=
  if st.poolSize ≤ st.idle.length then st
  else { st with idle := st.idle ++ [c] }

/-- Model of `Client.GetConnection`: the non-blocking channel receive
takes the oldest idle connection; with an empty pool a fresh connection
is dialled — `fresh` is the outcome of that `NewRedisConnection` call
(`none` models a dial/auth failure, in which case the error is returned
and the pool is unchanged). -/
def GetConnection (st : PoolState) (fresh : Option Nat) : Option (Nat × PoolState) :=
  match st.idle with
  | c :: rest => some (c, ⟨rest, st.poolSize⟩)
  | [] => fresh.map (fun c => (c, st))

/-- Model of `NewRedisClient`: the constructor loops `i = 0 .. poolSize-1`,
dialling and authenticating one connection per iteration (`dial i` is the
outcome of iteration `i`; `none` models a failed `NewRedisConnection`,
which is logged and skipped). If the pool ends up empty the constructor
fails. -/
def NewRedisClient (poolSize : Nat) (dial : Nat → Option Nat) : Option PoolState :=
  let conns := (List.range poolSize).filterMap dial
  if conns = [] then none else some ⟨conns, poolSize⟩

/-- One observable pool transition: a checkout that takes an idle
connection, a checkout that finds the pool empty (and dials an overflow
connection, leaving the pool unchanged), a release, or `Close` draining
the pool. -/
inductive PoolStep : PoolState → PoolState → Prop where
  | checkoutIdle (st : PoolState) (c : Nat) (rest : List Nat) :
      st.idle = c :: rest → PoolStep st ⟨rest, st.poolSize⟩
  | checkoutEmpty (st : PoolState) : st.idle = [] → PoolStep st st
  | release (st : PoolState) (c : Nat) : PoolStep st (ReleaseConnection st c)
  | closeAll (st : PoolState) : PoolStep st ⟨[], st.poolSize⟩

/-- Pool states reachable from an initial state by client operations. -/
inductive Reachable (init : PoolState) : PoolState → Prop where
  | refl : Reachable init init
  | step {st st' : PoolState} : Reachable init st → PoolStep st st' → Reachable init st'

/-! ### Command executor (`Client.Do` and the operations) -/

/-- Error kinds a client call can surface. -/
inductive GoErr where
  | ctxErr
  | ioErr
  | connUnavailable
  | unexpectedResponse
  deriving Repr, DecidableEq

/-- Which of `Client.Do`'s select branches resolves first: the caller's
context firing, or the send+receive goroutine delivering its outcome. -/
inductive RaceWinner where
  | ctxDone
  | exchange
  deriving Repr, DecidableEq

/-- Model of `Client.Do`: check out a connection (propagating a dial
failure), run the send+receive exchange in a goroutine, and select on
{ctx.Done, errChan, replyChan}. `server` is the reply stream the
connection's reader sees; the send is assumed to succeed (its failure is
just another `errChan` outcome). The deferred `ReleaseConnection` runs on
every return path, the context-cancelled one included. `none` models the
case where the exchange goroutine panics inside `Receive`, so no select
branch with it ever fires. -/
def Do (st : PoolState) (fresh : Option Nat) (winner : RaceWinner) (server : Reader) :
    Option (Except GoErr (List Char) × PoolState) :=
  match GetConnection st fresh with
  | none => some (Except.error GoErr.connUnavailable, st)
  | some (c, st1) =>
    match winner with
    | RaceWinner.ctxDone => some (Except.error GoErr.ctxErr, ReleaseConnection st1 c)
    | RaceWinner.exchange =>
      match Receive server with
      | RecvOut.ok s _ => some (Except.ok s, ReleaseConnection st1 c)
      | RecvOut.err => some (Except.error GoErr.ioErr, ReleaseConnection st1 c)
      | RecvOut.panicked => none

/-- Model of `Client.Set` after `Do` returns: errors propagate, and a
response other than exactly `"OK"` yields the "unexpected response from
server" error. -/
def SetResult (doRes : Except GoErr (List Char)) : Option GoErr :=
  match doRes with
  | Except.error e => some e
  | Except.ok response =>
    if response = "OK".data then none else some GoErr.unexpectedResponse

/-- Model of `Client.SetWithTTL` after `Do` returns: errors propagate,
and a response other than exactly `"+OK"` yields the "unexpected
response from server: ..." error. -/
def SetWithTTLResult (doRes : Except GoErr (List Char)) : Option GoErr :=
  match doRes with
  | Except.error e => some e
  | Except.ok response =>
    if response = "+OK".data then none else some GoErr.unexpectedResponse

/-- Model of `Client.Get`: the key only shapes the request bytes; the
`Do` result is returned unchanged (errors propagate, the decoded reply is
the value). -/
def GetResult (_key : List Char) (doRes : Except GoErr (List Char)) : Except GoErr (List Char) :=
  doRes

/-- Skip the blank bytes `fmt` scanning skips before a verb. -/
def dropScanSpaces : List Char → List Char
  | [] => []
  | c :: r => if c = ' ' ∨ c = '\t' then dropScanSpaces r else c :: r

/-- Digit run of `%d`: consume leading decimal digits into an
accumulator, returning the value and the unconsumed rest. -/
def scanDigitsAcc : List Char → Nat → Nat × List Char
  | [], acc => (acc, [])
  | c :: cs, acc =>
    if c.isDigit then scanDigitsAcc cs (10 * acc + (c.toNat - '0'.toNat))
    else (acc, c :: cs)

/-- The `%d` verb of `fmt` scanning: optional blanks, an optional sign,
then at least one digit; `none` models the scan error when no digit
follows. -/
def scanIntVerb (s : List Char) : Option (Int × List Char) :=
  match dropScanSpaces s with
  | [] => none
  | c :: rest =>
    if c = '-' then
      match rest with
      | [] => none
      | d :: _ =>
        if d.isDigit then
          let p := scanDigitsAcc rest 0
          some (-(p.1 : Int), p.2)
        else none
    else if c = '+' then
      match rest with
      | [] => none
      | d :: _ =>
        if d.isDigit then
          let p := scanDigitsAcc rest 0
          some ((p.1 : Int), p.2)
        else none
    else if c.isDigit then
      let p := scanDigitsAcc (c :: rest) 0
      some ((p.1 : Int), p.2)
    else none

/-- A trailing newline in a `fmt` scan format (the `\r\n` of the Incr
format counts as one newline) matches zero or more blanks followed by a
newline or the end of the input. -/
def fmtNewlineMatches (s : List Char) : Bool :=
  match dropScanSpaces s with
  | [] => true
  | '\n' :: _ => true
  | '\r' :: '\n' :: _ => true
  | _ => false

/-- Model of `fmt.Sscanf(response, ":%d\r\n", &newValue)`: the literal
`:` must match exactly, `%d` scans a signed integer, and the format's
trailing CRLF matches a newline or end of input. `none` models a non-nil
scan error. -/
def sscanfIncr (s : List Char) : Option Int :=
  match s with
  | ':' :: rest =>
    match scanIntVerb rest with
    | some (n, rest1) => if fmtNewlineMatches rest1 then some n else none
    | none => none
  | _ => none

/-- Model of `Client.Incr` after `Do` returns: errors propagate, the
response is parsed with `fmt.Sscanf(response, ":%d\r\n", &newValue)`, and
a scan error yields the "unexpected response from server" error. -/
def IncrResult (doRes : Except GoErr (List Char)) : Except GoErr Int :=
  match doRes with
  | Except.error e => Except.error e
  | Except.ok response =>
    match sscanfIncr response with
    | some n => Except.ok n
    | none => Except.error GoErr.unexpectedResponse

/-! ### Helper lemmas -/

lemma takeToNL_found (pre tail : List Char) (h : '\n' ∉ pre) :
    takeToNL (pre ++ '\n' :: tail) = some (pre ++ ['\n'], tail) := by
  induction pre with
  | nil => simp [takeToNL]
  | cons c cs ih =>
    have hc : c ≠ '\n' := by
      intro hc
      exact h (hc ▸ List.mem_cons_self c cs)
    have hcs : '\n' ∉ cs := fun hm => h (List.mem_cons_of_mem c hm)
    simp [takeToNL, hc, ih hcs]

lemma readLine_buffered (pre tail : List Char) (chunks : List (List Char)) (h : '\n' ∉ pre) :
    readLine ⟨pre ++ '\n' :: tail, chunks⟩ = some (pre ++ ['\n'], ⟨tail, chunks⟩) := by
  cases chunks with
  | nil => simp [readLine, readLineAux, takeToNL_found _ _ h]
  | cons c cs => simp [readLine, readLineAux, takeToNL_found _ _ h]

lemma trimSuffixCRLF_crlf (xs : List Char) :
    trimSuffixCRLF (xs ++ ['\r', '\n']) = xs := by
  simp [trimSuffixCRLF, List.reverse_append]

/-- Decoding a line whose leading byte is neither `-` nor `$` returns the
line with its CRLF suffix stripped, as a success. -/
lemma Receive_plain_line (hd : Char) (pre tail : List Char) (chunks : List (List Char))
    (hminus : hd ≠ '-') (hdollar : hd ≠ '$') (hnl : '\n' ∉ hd :: pre) :
    Receive ⟨hd :: pre ++ '\n' :: tail, chunks⟩
      = RecvOut.ok (trimSuffixCRLF (hd :: pre ++ ['\n'])) ⟨tail, chunks⟩ := by
  have h1 := readLine_buffered (hd :: pre) tail chunks hnl
  simp only [Receive]
  rw [h1]
  simp [hminus, hdollar]

/-- Decoding a `$` header whose length field does not parse as an integer
treats the length as 0 and succeeds with the empty string, consuming two
further bytes, whenever two bytes are buffered. -/
lemma Receive_dollar_garbage (g : List Char) (b1 b2 : Char) (rest : List Char)
    (chunks : List (List Char)) (hnl : '\n' ∉ g) (hbad : parseIntAll g = none) :
    Receive ⟨'$' :: g ++ '\r' :: '\n' :: b1 :: b2 :: rest, chunks⟩
      = RecvOut.ok [] ⟨rest, chunks⟩ := by
  have hnl2 : '\n' ∉ '$' :: (g ++ ['\r']) := by
    simp [List.mem_cons, List.mem_append]
    exact hnl
  have h1 := readLine_buffered ('$' :: (g ++ ['\r'])) (b1 :: b2 :: rest) chunks hnl2
  have h1' : readLine ⟨'$' :: g ++ '\r' :: '\n' :: b1 :: b2 :: rest, chunks⟩
      = some ('$' :: g ++ ['\r', '\n'], ⟨b1 :: b2 :: rest, chunks⟩) := by
    simpa [List.append_assoc] using h1
  have htrim : trimSuffixCRLF (g ++ ['\r', '\n']) = g := trimSuffixCRLF_crlf g
  simp only [Receive]
  rw [h1']
  simp only [List.head?, List.tail, Option.some.injEq]
  norm_num
  simp only [List.cons_append, htrim, goAtoi, hbad]
  simp [readOnce]

lemma scanDigitsAcc_digits (ds : List Char) (a : Nat) (h : ∀ c ∈ ds, c.isDigit) :
    scanDigitsAcc ds a = (ds.foldl (fun x c => 10 * x + (c.toNat - '0'.toNat)) a, []) := by
  induction ds generalizing a with
  | nil => simp [scanDigitsAcc]
  | cons c cs ih =>
    have hc := h c (List.mem_cons_self c cs)
    simp [scanDigitsAcc, hc, ih _ (fun d hd => h d (List.mem_cons_of_mem c hd))]

lemma ne_of_isDigit {c x : Char} (hc : c.isDigit = true) (hx : x.isDigit = false) : c ≠ x := by
  intro h
  subst h
  simp [hc] at hx

/-- The `fmt.Sscanf(response, ":%d\r\n", ...)` model accepts a colon
followed by an optionally signed digit run and returns its value. -/
lemma sscanfIncr_digits (sgn : Bool) (ds : List Char) (hne : ds ≠ [])
    (h : ∀ c ∈ ds, c.isDigit) :
    sscanfIncr (':' :: (if sgn then '-' :: ds else ds))
      = some (if sgn then -(digitsVal ds : Int) else (digitsVal ds : Int)) := by
  obtain ⟨d, ds', rfl⟩ := List.exists_cons_of_ne_nil hne
  have hd := h d (List.mem_cons_self d ds')
  have hscan := scanDigitsAcc_digits (d :: ds') 0 h
  cases sgn with
  | true =>
    simp [sscanfIncr, scanIntVerb, dropScanSpaces, hd, hscan, fmtNewlineMatches, digitsVal]
  | false =>
    have h1 : d ≠ ' ' := ne_of_isDigit hd (by decide)
    have h2 : d ≠ '\t' := ne_of_isDigit hd (by decide)
    have h3 : d ≠ '-' := ne_of_isDigit hd (by decide)
    have h4 : d ≠ '+' := ne_of_isDigit hd (by decide)
    simp [sscanfIncr, scanIntVerb, dropScanSpaces, h1, h2, h3, h4, hd, hscan,
      fmtNewlineMatches, digitsVal]

lemma poolStep_preserves {st st' : PoolState} (h : PoolStep st st')
    (hinv : st.idle.length ≤ st.poolSize) : st'.idle.length ≤ st'.poolSize := by
  cases h with
  | checkoutIdle c rest heq =>
    have hlen : st.idle.length = rest.length + 1 := by rw [heq]; simp
    show rest.length ≤ st.poolSize
    omega
  | checkoutEmpty hemp => exact hinv
  | release c =>
    unfold ReleaseConnection
    split
    · exact hinv
    · show (st.idle ++ [c]).length ≤ st.poolSize
      simp only [List.length_append, List.length_cons, List.length_nil]
      omega
  | closeAll => show List.length [] ≤ st.poolSize; simp

/-! ### Claim theorems -/

/-- C1, counterexample: a `Do` call on a capacity-1 pool whose context
fires before the exchange completes returns the cancellation error, yet
the connection (id 7) is back in the idle pool afterwards — the deferred
`ReleaseConnection` runs on the cancellation path too, refuting "the
checked-out connection is never returned to the idle pool". -/
theorem C1_cancelled_conn_back_in_idle_pool :
    Do ⟨[], 1⟩ (some 7) RaceWinner.ctxDone ⟨[], []⟩
      = some (Except.error GoErr.ctxErr, ⟨[7], 1⟩) := rfl

/-- C1, amended: when the caller's signal fires before the exchange
completes, `Do` returns a cancellation-kind error and hands the
connection to `ReleaseConnection`, which returns it to the idle pool
whenever the pool is below capacity (closing it only when full). -/
theorem C1_cancelled_do_releases_connection (st : PoolState) (fresh : Option Nat)
    (c : Nat) (st1 : PoolState) (server : Reader)
    (hget : GetConnection st fresh = some (c, st1)) :
    Do st fresh RaceWinner.ctxDone server
      = some (Except.error GoErr.ctxErr, ReleaseConnection st1 c)
    ∧ (st1.idle.length < st1.poolSize → c ∈ (ReleaseConnection st1 c).idle) := by
  constructor
  · simp [Do, hget]
  · intro hroom
    unfold ReleaseConnection
    rw [if_neg (by omega)]
    simp

/-- C1 witness: the amended statement instantiated on a capacity-2 pool
holding one idle connection at checkout time. -/
theorem C1_cancelled_do_releases_connection_witness :
    Do ⟨[4], 2⟩ none RaceWinner.ctxDone ⟨[], []⟩
      = some (Except.error GoErr.ctxErr, ReleaseConnection ⟨[], 2⟩ 4)
    ∧ 4 ∈ (ReleaseConnection ⟨[], 2⟩ 4).idle := by
  have h := C1_cancelled_do_releases_connection ⟨[4], 2⟩ none 4 ⟨[], 2⟩ ⟨[], []⟩ rfl
  exact ⟨h.1, h.2 (by decide)⟩

/-- C2, code bug: the decoder returns the status line with its `+` sigil
kept, so a server reply `+OK\r\n` decodes to `"+OK"`, and `Set` — which
compares the response against `"OK"` — returns the unexpected-response
error instead of succeeding. -/
theorem C2_set_rejects_plus_ok_reply :
    Receive ⟨[], ["+OK\r\n".data]⟩ = RecvOut.ok "+OK".data ⟨[], []⟩
    ∧ (Do ⟨[4], 1⟩ none RaceWinner.exchange ⟨[], ["+OK\r\n".data]⟩).map
        (fun p => (SetResult p.1, p.2))
      = some (some GoErr.unexpectedResponse, ⟨[4], 1⟩) := ⟨rfl, rfl⟩

/-- C3, code bug: `Set` accepts exactly the decoded reply `"OK"` while
`SetWithTTL` accepts exactly `"+OK"`; on both decoded forms the two
operations disagree about success, so they do not assert the same decoded
success form. -/
theorem C3_set_and_setwithttl_disagree :
    SetResult (Except.ok "OK".data) = none
    ∧ SetWithTTLResult (Except.ok "OK".data) = some GoErr.unexpectedResponse
    ∧ SetResult (Except.ok "+OK".data) = some GoErr.unexpectedResponse
    ∧ SetWithTTLResult (Except.ok "+OK".data) = none := ⟨rfl, rfl, rfl, rfl⟩

/-- C4, counterexample: a reply line with leading byte `*` decodes as the
success `"*2"`, and a `$` header with the non-numeric length field `abc`
decodes as the success `""` (consuming two further bytes) — neither
returns an error, refuting the claim. -/
theorem C4_malformed_frames_decode_as_success :
    Receive ⟨[], ["*2\r\n".data]⟩ = RecvOut.ok "*2".data ⟨[], []⟩
    ∧ Receive ⟨[], ["$abc\r\nXY".data]⟩ = RecvOut.ok [] ⟨[], []⟩ := ⟨rfl, rfl⟩

/-- C4, amended: `Receive` fails only on `-` replies and I/O errors: a
reply line whose leading byte is anything other than `-` or `$`
(including `*` and `:`) is returned as a success with its CRLF stripped,
and a `$` header whose length field is not a valid decimal integer is
treated as length 0 (the `Atoi` error is discarded), yielding the empty
string as a success whenever two further bytes are buffered. -/
theorem C4_unrecognized_lines_returned_as_success :
    (∀ (hd : Char) (pre tail : List Char) (chunks : List (List Char)),
        hd ≠ '-' → hd ≠ '$' → '\n' ∉ hd :: pre →
        Receive ⟨hd :: pre ++ '\n' :: tail, chunks⟩
          = RecvOut.ok (trimSuffixCRLF (hd :: pre ++ ['\n'])) ⟨tail, chunks⟩)
    ∧ (∀ (g : List Char) (b1 b2 : Char) (rest : List Char) (chunks : List (List Char)),
        '\n' ∉ g → parseIntAll g = none →
        Receive ⟨'$' :: g ++ '\r' :: '\n' :: b1 :: b2 :: rest, chunks⟩
          = RecvOut.ok [] ⟨rest, chunks⟩) :=
  ⟨Receive_plain_line, Receive_dollar_garbage⟩

/-- C4 witness: the amended statement instantiated on the `*2` line and
on a `$abc` header followed by the two bytes `XY`. -/
theorem C4_unrecognized_lines_returned_as_success_witness :
    Receive ⟨"*2\r\n".data, []⟩ = RecvOut.ok "*2".data ⟨[], []⟩
    ∧ Receive ⟨"$abc\r\nXY".data, []⟩ = RecvOut.ok [] ⟨[], []⟩ := by
  constructor
  · exact C4_unrecognized_lines_returned_as_success.1 '*' ['2', '\r'] [] []
      (by decide) (by decide) (by decide)
  · exact C4_unrecognized_lines_returned_as_success.2 "abc".data 'X' 'Y' [] []
      (by decide) (by decide)

/-- C5, code bug: a bulk reply `$6\r\nfoobar\r\n` whose payload arrives
split across two underlying reads (`$6\r\nfoo` then `bar\r\n`) makes
`Receive` return the corrupted success `foo` followed by three zero
bytes, consuming only 3 of the 8 remaining frame bytes — the byte count
of the single `Read` call is discarded. When the whole frame arrives in
one read the correct `foobar` is returned with exactly n+2 bytes
consumed. -/
theorem C5_bulk_split_read_returns_corrupt_data :
    Receive ⟨[], ["$6\r\nfoo".data, "bar\r\n".data]⟩
      = RecvOut.ok ['f', 'o', 'o', Char.ofNat 0, Char.ofNat 0, Char.ofNat 0]
          ⟨[], ["bar\r\n".data]⟩
    ∧ Receive ⟨[], ["$6\r\nfoobar\r\n".data]⟩ = RecvOut.ok "foobar".data ⟨[], []⟩ :=
  ⟨rfl, rfl⟩

/-- C6: when the server reply to INCR is the integer frame `:n\r\n`
(an optionally `-`-signed digit run), `Incr` returns n with no error, and
the connection goes back through the release path. -/
theorem C6_incr_returns_integer_reply (sgn : Bool) (ds tail : List Char)
    (chunks : List (List Char)) (st : PoolState) (fresh : Option Nat)
    (c : Nat) (st1 : PoolState)
    (hne : ds ≠ []) (hdig : ∀ d ∈ ds, d.isDigit)
    (hget : GetConnection st fresh = some (c, st1)) :
    (Do st fresh RaceWinner.exchange
        ⟨':' :: (if sgn then '-' :: ds else ds) ++ '\r' :: '\n' :: tail, chunks⟩).map
        (fun p => (IncrResult p.1, p.2))
      = some (Except.ok (if sgn then -(digitsVal ds : Int) else (digitsVal ds : Int)),
          ReleaseConnection st1 c) := by
  have hnds : '\n' ∉ ds := fun hm => absurd (hdig _ hm) (by decide)
  have hnlb : '\n' ∉ (if sgn then '-' :: ds else ds) := by
    cases sgn <;> simp [hnds]
  have hnl : '\n' ∉ ':' :: ((if sgn then '-' :: ds else ds) ++ ['\r']) := by
    simp [List.mem_cons, List.mem_append]
    exact hnlb
  have hrecv := Receive_plain_line ':' ((if sgn then '-' :: ds else ds) ++ ['\r'])
    tail chunks (by decide) (by decide) hnl
  have hrecv' : Receive ⟨':' :: (if sgn then '-' :: ds else ds) ++ '\r' :: '\n' :: tail, chunks⟩
      = RecvOut.ok (trimSuffixCRLF ((':' :: (if sgn then '-' :: ds else ds)) ++ ['\r', '\n']))
          ⟨tail, chunks⟩ := by
    simpa [List.append_assoc] using hrecv
  have htrim := trimSuffixCRLF_crlf (':' :: (if sgn then '-' :: ds else ds))
  have hscan := sscanfIncr_digits sgn ds hne hdig
  have htrim2 : trimSuffixCRLF (':' :: ((if sgn then '-' :: ds else ds) ++ ['\r', '\n']))
      = ':' :: (if sgn then '-' :: ds else ds) := by simpa using htrim
  simp only [Do, hget]
  rw [hrecv']
  simp [IncrResult, htrim2, hscan]

/-- C6 witness: `Incr` against the concrete reply `:7\r\n` on a
capacity-1 pool returns 7 with no error. -/
theorem C6_incr_returns_integer_reply_witness :
    (Do ⟨[3], 1⟩ none RaceWinner.exchange ⟨":7\r\n".data, []⟩).map
        (fun p => (IncrResult p.1, p.2))
      = some (Except.ok (7 : Int), ⟨[3], 1⟩) := by
  have h := C6_incr_returns_integer_reply false ['7'] [] [] ⟨[3], 1⟩ none 3 ⟨[], 1⟩
    (by decide) (by decide) rfl
  exact h

/-- C7: decoding the nil bulk frame `$-1\r\n` yields the empty result
with no error, and `Get` (whatever the key) passes that through as an
empty-string success. -/
theorem C7_nil_bulk_maps_to_empty_string (key : List Char) :
    Receive ⟨[], ["$-1\r\n".data]⟩ = RecvOut.ok [] ⟨[], []⟩
    ∧ (Do ⟨[5], 2⟩ none RaceWinner.exchange ⟨[], ["$-1\r\n".data]⟩).map
        (fun p => (GetResult key p.1, p.2))
      = some (Except.ok [], ⟨[5], 2⟩) := ⟨rfl, rfl⟩

/-- C8: in every pool state reachable from a successful construction by
checkouts, releases and close, the number of idle connections never
exceeds the configured capacity. -/
theorem C8_idle_never_exceeds_capacity (size : Nat) (dial : Nat → Option Nat)
    (st0 st : PoolState) (hnew : NewRedisClient size dial = some st0)
    (hreach : Reachable st0 st) : st.idle.length ≤ st.poolSize := by
  have hst0 : st0.idle.length ≤ st0.poolSize := by
    by_cases hc : (List.range size).filterMap dial = []
    · simp [NewRedisClient, hc] at hnew
    · simp only [NewRedisClient, if_neg hc, Option.some.injEq] at hnew
      subst hnew
      show ((List.range size).filterMap dial).length ≤ size
      have h1 := List.length_filterMap_le dial (List.range size)
      simpa using h1
  induction hreach with
  | refl => exact hst0
  | step hr hstep ih => exact poolStep_preserves hstep ih

/-- C8 witness: a capacity-1 pool built from one successful dial, after a
release performed at capacity, still holds at most one idle connection. -/
theorem C8_idle_never_exceeds_capacity_witness :
    (ReleaseConnection ⟨[0], 1⟩ 9).idle.length ≤ (ReleaseConnection ⟨[0], 1⟩ 9).poolSize :=
  C8_idle_never_exceeds_capacity 1 (fun _ => some 0) ⟨[0], 1⟩ _ rfl
    (Reachable.step Reachable.refl (PoolStep.release _ 9))

/-- C9: construction attempts one dial per capacity slot, keeps exactly
the successful ones (skipping failures), and fails precisely when zero
connections could be established. -/
theorem C9_construction_skips_failed_dials (size : Nat) (dial : Nat → Option Nat) :
    (NewRedisClient size dial = none ↔ ∀ i < size, dial i = none)
    ∧ ∀ st, NewRedisClient size dial = some st →
        st.idle = (List.range size).filterMap dial
        ∧ st.idle.length ≤ size ∧ st.poolSize = size := by
  constructor
  · constructor
    · intro h i hi
      by_cases hc : (List.range size).filterMap dial = []
      · exact (List.filterMap_eq_nil_iff.mp hc) i (List.mem_range.mpr hi)
      · simp [NewRedisClient, hc] at h
    · intro h
      have hc : (List.range size).filterMap dial = [] :=
        List.filterMap_eq_nil_iff.mpr (fun a ha => h a (List.mem_range.mp ha))
      simp [NewRedisClient, hc]
  · intro st h
    by_cases hc : (List.range size).filterMap dial = []
    · simp [NewRedisClient, hc] at h
    · simp only [NewRedisClient, if_neg hc, Option.some.injEq] at h
      subst h
      refine ⟨rfl, ?_, rfl⟩
      have h1 := List.length_filterMap_le dial (List.range size)
      simpa using h1

/-- C9 witness: a capacity-1 construction with one successful dial yields
the pool holding exactly that connection. -/
theorem C9_construction_skips_failed_dials_witness :
    (PoolState.mk [5] 1).idle = (List.range 1).filterMap (fun _ => some 5)
    ∧ (PoolState.mk [5] 1).idle.length ≤ 1 ∧ (PoolState.mk [5] 1).poolSize = 1 :=
  (C9_construction_skips_failed_dials 1 (fun _ => some 5)).2 ⟨[5], 1⟩ rfl

/-- C10, code bug: a bulk header with declared length −2 makes `Receive`
panic (the slice `buf[:-2]` of the zero-length buffer has a negative
bound), and −3 panics already in `make([]byte, length+2)` — `Receive` is
not total at the decode boundary. -/
theorem C10_negative_bulk_length_panics :
    Receive ⟨[], ["$-2\r\n".data]⟩ = RecvOut.panicked
    ∧ Receive ⟨[], ["$-3\r\n".data]⟩ = RecvOut.panicked := ⟨rfl, rfl⟩

end Resp
